import Mathlib

/-!
Shallow embedding of `src/main.rs` of the dads-excel-helper repository.

Conventions of the embedding:
* `NaiveDate` values are represented by the number of days since 1970-01-01
  (an `Int`); calendar conversion follows the standard civil-calendar
  algorithm, which is what the chrono library implements.
* `f64` arithmetic on invoice values, commissions and Excel serial numbers is
  modelled over `ℚ` (exact arithmetic; floating-point rounding is not
  modelled).
* Rust panics (`unwrap` on `Err`/`None`, invalid `from_ymd`) are modelled as
  `Except.error ()`.
* The regex `\d` class is modelled as the ASCII digits (the interval texts of
  this application are ASCII).
-/

deriving instance DecidableEq for Except

attribute [local semireducible] Rat.mul Rat.inv Rat.add Rat.sub

namespace ExcelHelper

/-- True for leap years of the proleptic Gregorian calendar. -/
def isLeapYear (y : Int) : Bool :=
  y % 4 == 0 && (y % 100 != 0 || y % 400 == 0)

/-- Number of days of month `m` (1..12) of year `y`. -/
def daysInMonth (y m : Int) : Int :=
  if m = 2 then (if isLeapYear y then 29 else 28)
  else if m = 4 ∨ m = 6 ∨ m = 9 ∨ m = 11 then 30
  else 31

/-- Civil-from-days conversion: day count since 1970-01-01 to
`(year, month, day)` in the proleptic Gregorian calendar. -/
def civilFromDays (z0 : Int) : Int × Int × Int :=
  let z := z0 + 719468
  let era := z.fdiv 146097
  let doe := z - era * 146097
  let yoe := (doe - doe.fdiv 1460 + doe.fdiv 36524 - doe.fdiv 146096).fdiv 365
  let y := yoe + era * 400
  let doy := doe - (365 * yoe + yoe.fdiv 4 - yoe.fdiv 100)
  let mp := (5 * doy + 2).fdiv 153
  let d := doy - (153 * mp + 2).fdiv 5 + 1
  let m := mp + (if mp < 10 then 3 else -9)
  (y + (if m ≤ 2 then 1 else 0), m, d)

/-- Days-from-civil conversion, inverse of `civilFromDays` on valid dates. -/
def daysFromCivil (y m d : Int) : Int :=
  let y1 := if m ≤ 2 then y - 1 else y
  let era := y1.fdiv 400
  let yoe := y1 - era * 400
  let doy := (153 * (if 2 < m then m - 3 else m + 9) + 2).fdiv 5 + d - 1
  let doe := yoe * 365 + yoe.fdiv 4 - yoe.fdiv 100 + doy
  era * 146097 + doe - 719468

/-- The twelve English month names, as produced and consumed by the chrono
format specifier B. -/
def monthNames : List String :=
  ["January", "February", "March", "April", "May", "June", "July",
   "August", "September", "October", "November", "December"]

/-- Name of month `m` (1..12). -/
def monthName (m : Int) : String :=
  (monthNames.getD (m - 1).toNat "")

/-- Models chrono `date.format("%B %Y").to_string()`: full English month name,
a space, and the year in decimal digits. -/
def monthLabel (z : Int) : String :=
  let c := civilFromDays z
  monthName c.2.1 ++ " " ++ toString c.1

/-- Models `chrono::NaiveDate::from_ymd(y, m, d)`: `some` of the day count for
a valid civil date, `none` for the panic on an invalid component. -/
def from_ymd? (y m d : Int) : Option Int :=
  if 1 ≤ m ∧ m ≤ 12 ∧ 1 ≤ d ∧ d ≤ daysInMonth y m then
    some (daysFromCivil y m d)
  else
    none

/-- Error kinds of chrono `ParseError`, in the declaration order of the
library enum (the derived ordering compares by this index). -/
inductive ChronoParseKind where
  | outOfRange | impossible | notEnough | invalid | tooShort | tooLong | badFormat
  deriving DecidableEq, Repr

/-- Index of a `ChronoParseKind` in the library declaration order. -/
def ChronoParseKind.idx : ChronoParseKind → Nat
  | .outOfRange => 0 | .impossible => 1 | .notEnough => 2 | .invalid => 3
  | .tooShort => 4 | .tooLong => 5 | .badFormat => 6

/-- True when `s` is of the shape `<full month name> <decimal digits>`. -/
def isMonthYearLabel (s : String) : Bool :=
  monthNames.any fun m =>
    m.data.isPrefixOf s.data &&
    match s.data.drop m.data.length with
    | ' ' :: rest => !rest.isEmpty && rest.all Char.isDigit
    | _ => false

/-- Models chrono `NaiveDate::parse_from_str(s, "%B %Y")`. The format string
carries a month and a year but no day, and chrono never defaults a missing
field, so `Parsed::to_naive_date` always fails: a well-formed label fails
with `NOT_ENOUGH`, anything else fails in the scanner with `INVALID`. -/
def chronoParseBY (s : String) : Except ChronoParseKind Int :=
  if isMonthYearLabel s then .error .notEnough else .error .invalid

/-- Models the comparator `a_date.cmp(&b_date)` on
`Result<NaiveDate, ParseError>`: the derived ordering puts `Ok` before
`Err`, compares dates inside `Ok` and error kinds inside `Err`. -/
def cmpLabels (a b : String) : Ordering :=
  match chronoParseBY a, chronoParseBY b with
  | .ok x, .ok y => compare x y
  | .ok _, .error _ => .lt
  | .error _, .ok _ => .gt
  | .error e, .error f => compare e.idx f.idx

/-- Models `str::split("/")` (over char lists): split at every slash,
keeping empty pieces. -/
def splitSlash : List Char → List (List Char)
  | [] => [[]]
  | c :: rest =>
    let r := splitSlash rest
    if c = '/' then [] :: r
    else (c :: r.headI) :: r.tail

/-- Numeric value of a list of decimal digits. -/
def digitsToNat (l : List Char) : Nat :=
  l.foldl (fun acc c => 10 * acc + (c.toNat - 48)) 0

/-- True when the list is a nonempty run of at most `n` decimal digits. -/
def digitRun (n : Nat) (l : List Char) : Bool :=
  !l.isEmpty && l.length ≤ n && l.all Char.isDigit

/-- Models chrono `NaiveDate::parse_from_str(s, "%m/%d/%Y")` followed by
`to_naive_date`: three `/`-separated decimal fields (month and day at most
two digits, year at most four) forming a valid civil date. -/
def parseMDY (s : String) : Option Int :=
  match splitSlash s.data with
  | [ms, ds, ys] =>
    if digitRun 2 ms && digitRun 2 ds && digitRun 4 ys then
      from_ymd? (digitsToNat ys : Int) (digitsToNat ms : Int) (digitsToNat ds : Int)
    else none
  | _ => none

/-- Models `str::trim`: strip whitespace from both ends (over char lists). -/
def trimChars (l : List Char) : List Char :=
  ((l.dropWhile Char.isWhitespace).reverse.dropWhile Char.isWhitespace).reverse

/-- The cash marker compared against the trimmed interval text in
`get_commissions_by_month`. -/
def MARKER : String := "ANTECIPADO / A VISTA [2]"

/-- The optional slash after a digit group: consume a leading `/` when
present. Returns the consumed group (with the slash appended when taken)
and the rest. -/
def slashOpt (acc : List Char) (l : List Char) : List Char × List Char :=
  if l.head? = some '/' then (acc ++ ['/'], l.tail) else (acc, l)

theorem slashOpt_snd_le (acc l : List Char) :
    (slashOpt acc l).2.length ≤ l.length := by
  rw [slashOpt]
  split
  · simp [List.length_tail]
  · simp

/-- One iteration of the repetition in the regex `^((\x64{2,3}/?)+)` (where
\x64 stands for the digit class): greedily two or three digits, then an
optional slash. Returns the consumed characters and the rest, or `none` when
the iteration cannot start. -/
def grpIter : List Char → Option (List Char × List Char)
  | a :: b :: c :: rest =>
    if a.isDigit && b.isDigit then
      if c.isDigit then some (slashOpt [a, b, c] rest)
      else some (slashOpt [a, b] (c :: rest))
    else none
  | [a, b] => if a.isDigit && b.isDigit then some ([a, b], []) else none
  | _ => none

theorem grpIter_rest_lt {s g rest} (h : grpIter s = some (g, rest)) :
    rest.length < s.length := by
  match s with
  | [] => simp [grpIter] at h
  | [a] => simp [grpIter] at h
  | [a, b] =>
    rw [grpIter] at h
    split at h
    · simp only [Option.some.injEq, Prod.mk.injEq] at h
      simp [← h.2]
    · exact absurd h (by simp)
  | a :: b :: c :: r =>
    rw [grpIter] at h
    split at h
    · split at h
      · simp only [Option.some.injEq] at h
        have h2 := slashOpt_snd_le [a, b, c] r
        rw [h] at h2
        dsimp only at h2
        simp only [List.length_cons]
        omega
      · simp only [Option.some.injEq] at h
        have h2 := slashOpt_snd_le [a, b] (c :: r)
        rw [h] at h2
        dsimp only at h2
        simp only [List.length_cons] at h2 ⊢
        omega
    · exact absurd h (by simp)

/-- Fuelled run of iterations of `grpIter`; the fuel is only a structural
termination device (each iteration consumes at least two characters), spent
one unit per iteration. -/
def grpManyF : Nat → List Char → List Char
  | 0, _ => []
  | fuel + 1, s =>
    match grpIter s with
    | none => []
    | some (g, rest) => g ++ grpManyF fuel rest

theorem grpManyF_irrel :
    ∀ (fuel1 fuel2 : Nat) (s : List Char), s.length < fuel1 →
      s.length < fuel2 → grpManyF fuel1 s = grpManyF fuel2 s := by
  intro fuel1
  induction fuel1 with
  | zero => intro fuel2 s h1; omega
  | succ f1 ih =>
    intro fuel2 s h1 h2
    match fuel2, h2 with
    | f2 + 1, h2 =>
      rw [grpManyF, grpManyF]
      cases hi : grpIter s with
      | none => rfl
      | some p =>
        obtain ⟨g, rest⟩ := p
        have hlt := grpIter_rest_lt hi
        dsimp only
        rw [ih f2 rest (by omega) (by omega)]

/-- The maximal run of iterations of `grpIter` (the greedy `+` of the
regex); returns the concatenation of the consumed characters. The regex
matches iff the first iteration succeeds, and since the pattern ends after
the repetition, the greedy leftmost-first match is exactly this maximal
run. -/
def grpMany (s : List Char) : List Char :=
  grpManyF (s.length + 1) s

theorem grpMany_of_iter_none {s} (h : grpIter s = none) : grpMany s = [] := by
  rw [grpMany, grpManyF, h]

theorem grpMany_of_iter_some {s g rest} (h : grpIter s = some (g, rest)) :
    grpMany s = g ++ grpMany rest := by
  have hlt := grpIter_rest_lt h
  rw [grpMany, grpManyF, h, grpMany]
  dsimp only
  rw [grpManyF_irrel s.length (rest.length + 1) rest (by omega) (by omega)]

/-- Models `installments_regex.captures(text)` for the anchored regex
`^((\x64{2,3}/?)+)`: `some` of capture group 1 (the whole match) when the
text matches, `none` otherwise. `is_match` of the source is `Option.isSome`
of this. -/
def installmentsMatch (s : List Char) : Option (List Char) :=
  match grpIter s with
  | none => none
  | some _ => some (grpMany s)

/-- Models `i16::from_str` on the split pieces (which are runs of decimal
digits or empty): `some` of the value when nonempty, all digits and within
the `i16` range, `none` for the `Err` that the source unwraps (a panic). -/
def parseI16 (l : List Char) : Option Int :=
  if l ≠ [] ∧ l.all Char.isDigit ∧ digitsToNat l ≤ 32767 then
    some (digitsToNat l)
  else none

/-- Models `special_commission_regex.captures(text)` for the regex
`(\x64)%`: the digit of the leftmost digit-immediately-before-percent
occurrence, if any. -/
def specialRate : List Char → Option Nat
  | [] => none
  | [_] => none
  | c :: d :: rest =>
    if c.isDigit && d = '%' then some (c.toNat - 48)
    else specialRate (d :: rest)

/-- The effective commission rate of the scheduled branch
(`src/main.rs` lines 156-159): the overriding digit when the text contains
`<digit>%`, otherwise `7`. -/
def effectiveRate (t : List Char) : ℚ :=
  match specialRate t with
  | some d => (d : ℚ)
  | none => 7

/-- The `Invoice` struct of the source. `emission_date` is a day count since
1970-01-01; `number` and `value` are `f64` fields modelled over `ℚ`. -/
structure Invoice where
  emission_date : Int
  number : ℚ
  client : String
  payment_interval : String
  value : ℚ
  deriving DecidableEq, Repr

/-- The `CommissionedInvoice` struct of the source. -/
structure CommissionedInvoice where
  emission_date : Int
  number : ℚ
  client : String
  installment_value : ℚ
  commission_value : ℚ
  deriving DecidableEq, Repr

/-- The record pushed by the immediate branch of `get_commissions_by_month`
(`src/main.rs` lines 138-151), paired with its due date (emission date plus
30 days), from which the source derives the month bucket key. -/
def immRecord (inv : Invoice) : Int × CommissionedInvoice :=
  (inv.emission_date + 30,
   { emission_date := inv.emission_date, number := inv.number,
     client := inv.client, installment_value := inv.value,
     commission_value := 7 * inv.value / 100 })

/-- The record pushed by the scheduled branch for one offset of `days`
(`src/main.rs` lines 161-175), with `n` the number of split pieces and
`commission` the effective rate, paired with its due date. -/
def schedRecord (inv : Invoice) (n : Nat) (commission : ℚ) (days : Int) :
    Int × CommissionedInvoice :=
  (inv.emission_date + days,
   { emission_date := inv.emission_date, number := inv.number,
     client := inv.client, installment_value := inv.value / (n : ℚ),
     commission_value := commission * (inv.value / (n : ℚ)) / 100 })

/-- The `for interval in &intervals` loop of the scheduled branch: parse
each offset piece as an `i16` (panicking on failure, `Except.error ()`) and
push one record per offset, in the listed order. -/
def allocLoop (inv : Invoice) (n : Nat) (commission : ℚ) :
    List (List Char) → Except Unit (List (Int × CommissionedInvoice))
  | [] => .ok []
  | iv :: rest =>
    match parseI16 iv with
    | none => .error ()
    | some days =>
      (allocLoop inv n commission rest).map
        (fun tail => schedRecord inv n commission days :: tail)

/-- The loop body of `get_commissions_by_month` for one invoice: the list of
produced records in production order, each paired with its due date. -/
def allocate (inv : Invoice) : Except Unit (List (Int × CommissionedInvoice)) :=
  if trimChars inv.payment_interval.data = MARKER.data ∨
     installmentsMatch inv.payment_interval.data = none then
    .ok [immRecord inv]
  else
    match installmentsMatch inv.payment_interval.data with
    | none => .error ()
    | some g =>
      let intervals := splitSlash g
      let commission := effectiveRate inv.payment_interval.data
      allocLoop inv intervals.length commission intervals

/-- Pure parse of every offset piece (`none` as soon as one piece is not a
valid `i16`). -/
def parseAll : List (List Char) → Option (List Int)
  | [] => some []
  | iv :: rest =>
    match parseI16 iv with
    | none => none
    | some d => (parseAll rest).map (fun tail => d :: tail)

/-- Insert one record under its key into the bucket map, modelled as an
association list keyed by month label: append to the existing entry, or add
a new entry (`HashMap::entry(..).or_insert(Vec::new()).push(..)`). The map
contents (key to record list) are exactly those of the source HashMap; only
the iteration order of keys is not modelled here (it is arbitrary in the
source and appears as a parameter of `pipeline`). -/
def insertRecord (m : List (String × List CommissionedInvoice)) (key : String)
    (c : CommissionedInvoice) : List (String × List CommissionedInvoice) :=
  match m with
  | [] => [(key, [c])]
  | (k, l) :: rest =>
    if k = key then (k, l ++ [c]) :: rest
    else (k, l) :: insertRecord rest key c

/-- Insert every produced record of one invoice, keyed by the month label of
its due date. -/
def insertAll (m : List (String × List CommissionedInvoice))
    (recs : List (Int × CommissionedInvoice)) :
    List (String × List CommissionedInvoice) :=
  recs.foldl (fun m r => insertRecord m (monthLabel r.1) r.2) m

/-- Models `get_commissions_by_month`: fold the allocation of every invoice,
in input order, into the bucket map. An allocation panic aborts the run. -/
def get_commissions_by_month (invoices : List Invoice) :
    Except Unit (List (String × List CommissionedInvoice)) :=
  invoices.foldlM (fun m inv => (allocate inv).map (insertAll m)) []

/-- Stable insertion of `x` into `l`: before the first element that is not
strictly smaller than `x` under `cmpLabels` (so an element equal to `x`
that was originally behind `x` stays behind it). -/
def sortInsert (x : String) : List String → List String
  | [] => [x]
  | y :: ys =>
    if cmpLabels x y ≠ Ordering.gt then x :: y :: ys else y :: sortInsert x ys

/-- Models `ordered_months.sort_by(comparator)` (`src/main.rs` lines 76-83):
a stable sort by the comparator `cmpLabels`. Vec::sort_by is a stable sort;
since `cmpLabels` is a total preorder, every stable sort produces this
result. -/
def sortMonths : List String → List String
  | [] => []
  | x :: xs => sortInsert x (sortMonths xs)

/-- One cell of a source worksheet row (the calamine `DataType` variants the
source discriminates on). -/
inductive Cell where
  | dateTime (serial : ℚ)
  | str (s : String)
  | float (f : ℚ)
  | bool (b : Bool)
  | empty
  deriving DecidableEq, Repr

/-- Models calamine `DataType::get_float`. -/
def Cell.get_float : Cell → Option ℚ
  | .float f => some f
  | _ => none

/-- Models calamine `DataType::get_string`. -/
def Cell.get_string : Cell → Option String
  | .str s => some s
  | _ => none

/-- One source row, restricted to the five columns the source reads
(indices 0, 1, 4, 8, 10). -/
structure Row where
  emission : Cell
  number : Cell
  client : Cell
  interval : Cell
  value : Cell
  deriving DecidableEq, Repr

/-- Truncation toward zero of a rational, modelling `f64::trunc` composed
with `as i64`. -/
def ratTrunc (q : ℚ) : Int :=
  if 0 ≤ q then q.floor else q.ceil

/-- Models the DateTime arm of `get_invoices`: `(f - 25569.) * 86400.`
truncated to seconds, then `NaiveDateTime::from_timestamp(secs, _).date()`,
the day count `secs.div_euclid(86400)` since 1970-01-01. -/
def dateFromSerial (f : ℚ) : Int :=
  (ratTrunc ((f - 25569) * 86400)).fdiv 86400

/-- The DateTime arm of the emission-date match: convert the serial value,
then rebuild the date with `NaiveDate::from_ymd(year, day, month)` — day
and month in swapped positions, exactly as the source passes them. -/
def dateTimeArm (f : ℚ) : Except Unit (Option Int) :=
  let z := dateFromSerial f
  let c := civilFromDays z
  match from_ymd? c.1 c.2.2 c.2.1 with
  | some date => .ok (some date)
  | none => .error ()

/-- The String arm of the emission-date match:
`NaiveDate::parse_from_str(s, "%m/%d/%Y").unwrap()`. -/
def strArm (s : String) : Except Unit (Option Int) :=
  match parseMDY s with
  | some date => .ok (some date)
  | none => .error ()

/-- Models the emission-date interpretation of one row
(`src/main.rs` lines 102-115). `Except.error ()` is a panic and `.ok none`
is a skipped row. -/
def rowDate : Cell → Except Unit (Option Int)
  | .dateTime f => dateTimeArm f
  | .str s => strArm s
  | _ => .ok none

/-- Process the data rows of `get_invoices` in order: build an `Invoice` per
row whose emission date is interpretable, skip the others, abort on a
panic. -/
def processRows : List Row → Except Unit (List Invoice)
  | [] => .ok []
  | r :: rs =>
    match rowDate r.emission with
    | .error _ => .error ()
    | .ok none => processRows rs
    | .ok (some d) =>
      (processRows rs).map fun tail =>
        { emission_date := d,
          number := (r.number.get_float).getD 0,
          client := (r.client.get_string).getD "",
          payment_interval := (r.interval.get_string).getD "",
          value := (r.value.get_float).getD 0 } :: tail

/-- Models `get_invoices`: the worksheet rows minus the header
(`.rows().skip(1)`). -/
def get_invoices (rows : List Row) : Except Unit (List Invoice) :=
  processRows (rows.drop 1)

/-- Models the remainder of `main` after reading the invoices: build the
bucket map, collect its keys in the iteration order of the hash map
(`iterOrder`, a parameter because the order of `HashMap::keys` is
arbitrary and not a function of the contents), sort them with the label
comparator, and hand the writer one `(label, records)` pair per ordered
key. -/
def pipeline (invoices : List Invoice)
    (iterOrder : List (String × List CommissionedInvoice) → List String) :
    Except Unit (List (String × List CommissionedInvoice)) :=
  match get_commissions_by_month invoices with
  | .error e => .error e
  | .ok m =>
    .ok ((sortMonths (iterOrder m)).map fun k =>
      (k, ((m.find? (fun p => p.1 = k)).map (fun p => p.2)).getD []))

/-- The iteration order used for concrete runs: first-insertion order of the
association list (one of the possible hash map orders). -/
def insertionOrder (m : List (String × List CommissionedInvoice)) : List String :=
  m.map (fun p => p.1)

/-! Helper lemmas about the embedded operations. -/

theorem allocLoop_eq (inv : Invoice) (n : Nat) (c : ℚ) (l : List (List Char)) :
    allocLoop inv n c l =
      match parseAll l with
      | none => Except.error ()
      | some os => Except.ok (os.map (schedRecord inv n c)) := by
  induction l with
  | nil => simp [allocLoop, parseAll]
  | cons a t ih =>
    rw [allocLoop, parseAll]
    cases hp : parseI16 a with
    | none => simp
    | some d =>
      dsimp only
      rw [ih]
      cases ht : parseAll t with
      | none => simp [Except.map]
      | some os => simp [Except.map]

theorem parseAll_length :
    ∀ {l : List (List Char)} {os : List Int},
      parseAll l = some os → os.length = l.length := by
  intro l
  induction l with
  | nil => intro os h; simp [parseAll] at h; simp [← h]
  | cons a t ih =>
    intro os h
    rw [parseAll] at h
    cases hp : parseI16 a with
    | none => simp [hp] at h
    | some d =>
      rw [hp] at h
      cases ht : parseAll t with
      | none => simp [ht] at h
      | some os' =>
        rw [ht] at h
        simp at h
        simp [← h, ih ht]

theorem splitSlash_ne_nil (l : List Char) : splitSlash l ≠ [] := by
  match l with
  | [] => simp [splitSlash]
  | c :: rest =>
    rw [splitSlash]
    by_cases hc : c = '/' <;> simp [hc]

/-- Closed form of the immediate branch. -/
theorem allocate_immediate (inv : Invoice)
    (h : trimChars inv.payment_interval.data = MARKER.data ∨
         installmentsMatch inv.payment_interval.data = none) :
    allocate inv = .ok [immRecord inv] := by
  rw [allocate, if_pos h]

/-- Closed form of the scheduled branch, given that the pattern matches and
every split piece parses. -/
theorem allocate_scheduled (inv : Invoice) (g : List Char) (os : List Int)
    (h1 : trimChars inv.payment_interval.data ≠ MARKER.data)
    (h2 : installmentsMatch inv.payment_interval.data = some g)
    (h3 : parseAll (splitSlash g) = some os) :
    allocate inv = .ok (os.map
      (schedRecord inv (splitSlash g).length
        (effectiveRate inv.payment_interval.data))) := by
  have hcond : ¬(trimChars inv.payment_interval.data = MARKER.data ∨
      installmentsMatch inv.payment_interval.data = none) := by
    push_neg
    exact ⟨h1, by simp [h2]⟩
  rw [allocate, if_neg hcond, h2]
  dsimp only
  rw [allocLoop_eq, h3]

theorem sum_map_const {α : Type} (l : List α) (c : ℚ) :
    (l.map fun _ => c).sum = l.length * c := by
  induction l with
  | nil => simp
  | cons a t ih => simp [ih]; ring

/-! Concrete fixtures used by witnesses and counterexamples. Day 19732 is
2024-01-10, the emission date of the end-to-end example of the spec. -/

def exampleInvoice : Invoice :=
  { emission_date := 19732, number := 101, client := "Example Client",
    payment_interval := "30/60/90", value := 1000 }

def markerInvoice : Invoice :=
  { emission_date := 19732, number := 102, client := "Cash Client",
    payment_interval := "ANTECIPADO / A VISTA [2]", value := 500 }

def overrideInvoice : Invoice :=
  { emission_date := 19732, number := 103, client := "Override Client",
    payment_interval := "30/60 5%", value := 100 }

def overrideRecords : List (Int × CommissionedInvoice) :=
  [(19762, { emission_date := 19732, number := 103, client := "Override Client",
             installment_value := 50, commission_value := 5/2 }),
   (19792, { emission_date := 19732, number := 103, client := "Override Client",
             installment_value := 50, commission_value := 5/2 })]

def sumInvoice : Invoice :=
  { emission_date := 19732, number := 105, client := "Sum Client",
    payment_interval := "30/60", value := 100 }

def sumRecords : List (Int × CommissionedInvoice) :=
  [(19762, { emission_date := 19732, number := 105, client := "Sum Client",
             installment_value := 50, commission_value := 7/2 }),
   (19792, { emission_date := 19732, number := 105, client := "Sum Client",
             installment_value := 50, commission_value := 7/2 })]

/-! The claim theorems. -/

/-- C1: for every invoice whose trimmed payment-interval text is not the
cash marker and whose text matches the leading numeric-groups pattern,
with every matched group parsing to a day-offset (offsets `os`, in matched
order) and with effective rate `effectiveRate`, the allocator produces
exactly one record per offset, in the listed order, each with installment
value `value / n`, commission value `rate * (value / n) / 100`, due date
`emission_date + o`, and the client name and invoice number of the
original invoice. -/
theorem C1_scheduled_allocation (inv : Invoice) (g : List Char) (os : List Int)
    (h1 : trimChars inv.payment_interval.data ≠ MARKER.data)
    (h2 : installmentsMatch inv.payment_interval.data = some g)
    (h3 : parseAll (splitSlash g) = some os) :
    allocate inv = .ok (os.map fun o =>
      (inv.emission_date + o,
       { emission_date := inv.emission_date, number := inv.number,
         client := inv.client,
         installment_value := inv.value / (os.length : ℚ),
         commission_value := effectiveRate inv.payment_interval.data *
           (inv.value / (os.length : ℚ)) / 100 })) := by
  rw [allocate_scheduled inv g os h1 h2 h3, parseAll_length h3]
  rfl

/-- Witness for C1 at the end-to-end example invoice. -/
theorem C1_scheduled_allocation_witness :
    allocate exampleInvoice = .ok (([30, 60, 90] : List Int).map fun o =>
      (exampleInvoice.emission_date + o,
       { emission_date := exampleInvoice.emission_date,
         number := exampleInvoice.number,
         client := exampleInvoice.client,
         installment_value := exampleInvoice.value /
           ((([30, 60, 90] : List Int).length : ℚ)),
         commission_value := effectiveRate exampleInvoice.payment_interval.data *
           (exampleInvoice.value / ((([30, 60, 90] : List Int).length : ℚ))) / 100 })) :=
  C1_scheduled_allocation exampleInvoice ("30/60/90".data) [30, 60, 90]
    (by decide) (by decide) (by decide)

/-- C2: for every invoice whose trimmed payment-interval text equals the
cash marker, or whose text does not match the leading numeric-groups
pattern at all, exactly one record is produced, with installment value the
full invoice value, commission value 7 percent of it, and due date (hence
month bucket) 30 days after the emission date. -/
theorem C2_immediate_allocation (inv : Invoice)
    (h : trimChars inv.payment_interval.data = MARKER.data ∨
         installmentsMatch inv.payment_interval.data = none) :
    allocate inv = .ok [(inv.emission_date + 30,
      { emission_date := inv.emission_date, number := inv.number,
        client := inv.client, installment_value := inv.value,
        commission_value := 7 * inv.value / 100 })] ∧
    get_commissions_by_month [inv] = .ok [(monthLabel (inv.emission_date + 30),
      [{ emission_date := inv.emission_date, number := inv.number,
         client := inv.client, installment_value := inv.value,
         commission_value := 7 * inv.value / 100 }])] := by
  refine ⟨allocate_immediate inv h, ?_⟩
  simp [get_commissions_by_month, List.foldlM, allocate_immediate inv h,
    insertAll, insertRecord, immRecord, Except.map]

/-- Witness for C2 at the cash-marker invoice. -/
theorem C2_immediate_allocation_witness :
    allocate markerInvoice = .ok [(markerInvoice.emission_date + 30,
      { emission_date := markerInvoice.emission_date, number := markerInvoice.number,
        client := markerInvoice.client, installment_value := markerInvoice.value,
        commission_value := 7 * markerInvoice.value / 100 })] ∧
    get_commissions_by_month [markerInvoice] =
      .ok [(monthLabel (markerInvoice.emission_date + 30),
        [{ emission_date := markerInvoice.emission_date, number := markerInvoice.number,
           client := markerInvoice.client, installment_value := markerInvoice.value,
           commission_value := 7 * markerInvoice.value / 100 }])] :=
  C2_immediate_allocation markerInvoice (Or.inl (by decide))

/-- C5: on the scheduled path, when the full raw text contains a rate
override (a digit immediately before a percent sign, leftmost occurrence)
that digit is the commission rate of every produced record; without one the
rate is 7. -/
theorem C5_rate_override (inv : Invoice) (g : List Char) (os : List Int)
    (l : List (Int × CommissionedInvoice))
    (h1 : trimChars inv.payment_interval.data ≠ MARKER.data)
    (h2 : installmentsMatch inv.payment_interval.data = some g)
    (h3 : parseAll (splitSlash g) = some os)
    (h4 : allocate inv = .ok l) :
    (∀ d, specialRate inv.payment_interval.data = some d →
      ∀ p ∈ l, p.2.commission_value = (d : ℚ) * (inv.value / (os.length : ℚ)) / 100) ∧
    (specialRate inv.payment_interval.data = none →
      ∀ p ∈ l, p.2.commission_value = 7 * (inv.value / (os.length : ℚ)) / 100) := by
  have he := allocate_scheduled inv g os h1 h2 h3
  have hl : l = os.map (schedRecord inv (splitSlash g).length
      (effectiveRate inv.payment_interval.data)) :=
    Except.ok.inj (h4.symm.trans he)
  subst hl
  constructor
  · intro d hd p hp
    obtain ⟨o, _, rfl⟩ := List.mem_map.mp hp
    rw [parseAll_length h3]
    simp [schedRecord, effectiveRate, hd]
  · intro hn p hp
    obtain ⟨o, _, rfl⟩ := List.mem_map.mp hp
    rw [parseAll_length h3]
    simp [schedRecord, effectiveRate, hn]

/-- Witness for C5 at the invoice with interval text `30/60 5%`. -/
theorem C5_rate_override_witness :
    ((19762 : Int),
      (⟨19732, 103, "Override Client", 50, 5/2⟩ : CommissionedInvoice)).2.commission_value =
      (5 : ℚ) * (overrideInvoice.value / ((([30, 60] : List Int).length : ℚ))) / 100 := by
  have h := C5_rate_override overrideInvoice ("30/60".data) [30, 60] overrideRecords
    (by decide) (by decide) (by decide) (by decide)
  exact h.1 5 (by decide) _ (by decide)

/-- C6: the installment values produced for one invoice always sum to the
original invoice value (exact arithmetic). -/
theorem C6_sum_installments (inv : Invoice)
    (l : List (Int × CommissionedInvoice)) (h : allocate inv = .ok l) :
    (l.map fun p => p.2.installment_value).sum = inv.value := by
  by_cases hc : (trimChars inv.payment_interval.data = MARKER.data ∨
      installmentsMatch inv.payment_interval.data = none)
  · rw [allocate_immediate inv hc] at h
    have hl := Except.ok.inj h
    rw [← hl]
    simp [immRecord]
  · push_neg at hc
    obtain ⟨h1, h2⟩ := hc
    obtain ⟨g, hg⟩ := Option.ne_none_iff_exists'.mp h2
    rw [allocate, if_neg (by push_neg; exact ⟨h1, by simp [hg]⟩), hg] at h
    dsimp only at h
    rw [allocLoop_eq] at h
    cases hos : parseAll (splitSlash g) with
    | none => rw [hos] at h; exact absurd h (by simp)
    | some os =>
      rw [hos] at h
      have hl := Except.ok.inj h
      rw [← hl]
      have hn : ((splitSlash g).length : ℚ) ≠ 0 := by
        have := splitSlash_ne_nil g
        simpa using this
      have hmap : (os.map (schedRecord inv (splitSlash g).length
          (effectiveRate inv.payment_interval.data))).map
            (fun p => p.2.installment_value) =
          os.map fun _ => inv.value / ((splitSlash g).length : ℚ) := by
        rw [List.map_map]
        rfl
      rw [hmap, sum_map_const, parseAll_length hos, mul_comm,
        div_mul_cancel₀ inv.value hn]

/-- Witness for C6 at a two-installment invoice. -/
theorem C6_sum_installments_witness :
    (sumRecords.map fun p => p.2.installment_value).sum = sumInvoice.value :=
  C6_sum_installments sumInvoice sumRecords (by decide)

def singleDigitInvoice : Invoice :=
  { emission_date := 19732, number := 104, client := "Single Digit Client",
    payment_interval := "5", value := 100 }

def exampleBuckets : List (String × List CommissionedInvoice) :=
  [("February 2024", [⟨19732, 101, "Example Client", 1000/3, 70/3⟩]),
   ("March 2024", [⟨19732, 101, "Example Client", 1000/3, 70/3⟩]),
   ("April 2024", [⟨19732, 101, "Example Client", 1000/3, 70/3⟩])]

def sumBuckets : List (String × List CommissionedInvoice) :=
  [("February 2024", [⟨19732, 105, "Sum Client", 50, 7/2⟩]),
   ("March 2024", [⟨19732, 105, "Sum Client", 50, 7/2⟩])]

/-- The key iteration order of the other hash map state: same keys, reversed. -/
def reversedOrder (m : List (String × List CommissionedInvoice)) : List String :=
  (m.map fun p => p.1).reverse

def headerRow : Row :=
  { emission := Cell.empty, number := Cell.empty, client := Cell.empty,
    interval := Cell.empty, value := Cell.empty }

def badDateRow : Row :=
  { emission := Cell.str "oi", number := Cell.empty, client := Cell.empty,
    interval := Cell.empty, value := Cell.empty }

/-- C3 fails on the code: chrono cannot re-parse a `%B %Y` label into a
`NaiveDate` (the format supplies no day), so the comparator returns equal
for every pair of labels and the sort leaves the list in the arbitrary map
iteration order; on the spec example the output is not chronological. -/
theorem C3_sort_not_chronological :
    cmpLabels "December 2023" "March 2024" = Ordering.eq ∧
    sortMonths ["March 2024", "January 2025", "December 2023"] =
      ["March 2024", "January 2025", "December 2023"] ∧
    sortMonths ["March 2024", "January 2025", "December 2023"] ≠
      ["December 2023", "March 2024", "January 2025"] := by decide

/-- Counterexample to C7: every month label of the example run fails to
re-parse (`NOT_ENOUGH`), yet the run does not stop: the ordered bucket list
is still produced and handed to the writer. -/
theorem C7_labels_fail_but_run_continues :
    chronoParseBY "February 2024" = .error ChronoParseKind.notEnough ∧
    chronoParseBY "March 2024" = .error ChronoParseKind.notEnough ∧
    chronoParseBY "April 2024" = .error ChronoParseKind.notEnough ∧
    pipeline [exampleInvoice] insertionOrder = .ok exampleBuckets := by decide

/-- C7 (amended): an unparseable month label is never fatal; the ordering
step is total, and the report is produced whenever allocation succeeded. -/
theorem C7_ordering_never_fatal (invs : List Invoice)
    (iterOrder : List (String × List CommissionedInvoice) → List String)
    (h : ∃ m, get_commissions_by_month invs = .ok m) :
    ∃ out, pipeline invs iterOrder = .ok out := by
  obtain ⟨m, hm⟩ := h
  exact ⟨_, by rw [pipeline, hm]⟩

/-- Witness for the amended C7 at the example run. -/
theorem C7_ordering_never_fatal_witness :
    ∃ out, pipeline [exampleInvoice] insertionOrder = .ok out :=
  C7_ordering_never_fatal [exampleInvoice] insertionOrder ⟨exampleBuckets, by decide⟩

/-- Counterexample to C8: a String emission cell that does not parse as
`%m/%d/%Y` is unwrapped in the source and panics; the run aborts instead of
skipping the row. -/
theorem C8_text_date_panics :
    parseMDY "oi" = none ∧ get_invoices [headerRow, badDateRow] = .error () := by
  decide

/-- C8 (amended): a row whose emission cell is interpretable as neither a
DateTime nor a String is skipped with no error surfaced; but a String
emission cell that fails to parse as a `%m/%d/%Y` date panics and aborts
the run. -/
theorem C8_skip_or_panic :
    (∀ (r : Row) (rs : List Row), rowDate r.emission = .ok none →
      processRows (r :: rs) = processRows rs) ∧
    (∀ (r : Row) (rs : List Row) (s : String), r.emission = Cell.str s →
      parseMDY s = none → processRows (r :: rs) = .error ()) := by
  constructor
  · intro r rs h
    rw [processRows, h]
  · intro r rs s hs hp
    have hrd : rowDate (Cell.str s) = .error () := by
      rw [rowDate, strArm, hp]
    rw [processRows, hs, hrd]

/-- Witness for the amended C8: an empty emission cell is skipped, a
non-date text emission cell aborts. -/
theorem C8_skip_or_panic_witness :
    processRows [headerRow] = processRows [] ∧
    processRows [badDateRow] = .error () :=
  ⟨C8_skip_or_panic.1 headerRow [] (by decide),
   C8_skip_or_panic.2 badDateRow [] "oi" (by decide) (by decide)⟩

/-- C9 fails on the code: with the same invoice collection, the label order
handed to the writer follows the arbitrary hash map iteration order —
the comparator returns equal on every label pair, so the stable sort cannot
repair a different iteration order — although the bucket contents are the
same either way. -/
theorem C9_order_depends_on_map_iteration :
    get_commissions_by_month [sumInvoice] = .ok sumBuckets ∧
    (pipeline [sumInvoice] insertionOrder).map (fun l => l.map fun p => p.1) =
      .ok ["February 2024", "March 2024"] ∧
    (pipeline [sumInvoice] reversedOrder).map (fun l => l.map fun p => p.1) =
      .ok ["March 2024", "February 2024"] ∧
    cmpLabels "February 2024" "March 2024" = Ordering.eq := by decide

/-- C10 fails on the code: the source passes day and month to
`NaiveDate::from_ymd` in swapped positions. Serial 45306 encodes
2024-01-15; the construction panics (month 15). Serial 45356 encodes
2024-03-05; the invoice stores 2024-05-03 instead. -/
theorem C10_datetime_swaps_day_month :
    dateFromSerial 45306 = daysFromCivil 2024 1 15 ∧
    rowDate (Cell.dateTime 45306) = .error () ∧
    dateFromSerial 45356 = daysFromCivil 2024 3 5 ∧
    rowDate (Cell.dateTime 45356) = .ok (some (daysFromCivil 2024 5 3)) ∧
    daysFromCivil 2024 5 3 ≠ daysFromCivil 2024 3 5 := by decide

/-- Counterexample to C4: `5` is a leading one-to-three-digit group, but
the regex requires two or three digits per group: the text does not match
and the invoice falls back to the immediate branch (full value, due 30 days
after emission), not to a one-offset five-day schedule. -/
theorem C4_single_digit_falls_back :
    installmentsMatch "5".data = none ∧
    allocate singleDigitInvoice =
      .ok [(19732 + 30, ⟨19732, 104, "Single Digit Client", 100, 7⟩)] ∧
    allocate singleDigitInvoice ≠
      .ok [(19732 + 5, ⟨19732, 104, "Single Digit Client", 100, 7⟩)] := by decide

/-! Machinery for the amended C4: a characterisation of the texts matched by
the leading numeric-groups pattern. -/

theorem isDigit_ne_slash {c : Char} (h : c.isDigit = true) : c ≠ '/' := by
  intro he
  subst he
  exact absurd h (by decide)

theorem grpIter_head_not_digit :
    ∀ {s : List Char}, (∀ c, s.head? = some c → c.isDigit = false) →
      grpIter s = none := by
  intro s h
  match s with
  | [] => rfl
  | [a] => rfl
  | [a, b] =>
    rw [grpIter, h a rfl]
    simp
  | a :: b :: c :: r =>
    rw [grpIter, h a rfl]
    simp

theorem grpMany_head_not_digit {s : List Char}
    (h : ∀ c, s.head? = some c → c.isDigit = false) : grpMany s = [] :=
  grpMany_of_iter_none (grpIter_head_not_digit h)

/-- Join a list of groups with slashes, as the matched text reads. -/
def joinSlash : List (List Char) → List Char
  | [] => []
  | [g] => g
  | g :: gs => g ++ '/' :: joinSlash gs

/-- One iteration consumes exactly one two-or-three-digit group when the
following character is neither a digit nor a slash (or the text ends). -/
theorem grpIter_group (g t : List Char)
    (hd : ∀ c ∈ g, c.isDigit = true) (hlen : g.length = 2 ∨ g.length = 3)
    (ht : ∀ c, t.head? = some c → c.isDigit = false ∧ c ≠ '/') :
    grpIter (g ++ t) = some (g, t) := by
  rcases hlen with h2 | h3
  · obtain ⟨a, b, rfl⟩ := List.length_eq_two.mp h2
    have ha := hd a (by simp)
    have hb := hd b (by simp)
    match t with
    | [] =>
      show grpIter [a, b] = some ([a, b], [])
      rw [grpIter, ha, hb]
      simp
    | c :: r =>
      have hc := ht c rfl
      show grpIter (a :: b :: c :: r) = some ([a, b], c :: r)
      rw [grpIter, ha, hb, hc.1]
      simp [slashOpt, hc.2]
  · obtain ⟨a, b, c, rfl⟩ := List.length_eq_three.mp h3
    have ha := hd a (by simp)
    have hb := hd b (by simp)
    have hc0 := hd c (by simp)
    match t with
    | [] =>
      show grpIter [a, b, c] = some ([a, b, c], [])
      rw [grpIter, ha, hb, hc0]
      simp [slashOpt]
    | d :: r =>
      have hdh := ht d rfl
      show grpIter (a :: b :: c :: d :: r) = some ([a, b, c], d :: r)
      rw [grpIter, ha, hb, hc0]
      simp [slashOpt, hdh.2]

/-- One iteration consumes a two-or-three-digit group and the slash that
separates it from the next group. -/
theorem grpIter_group_slash (g t : List Char)
    (hd : ∀ c ∈ g, c.isDigit = true) (hlen : g.length = 2 ∨ g.length = 3) :
    grpIter (g ++ '/' :: t) = some (g ++ ['/'], t) := by
  have hs : ('/' : Char).isDigit = false := by decide
  rcases hlen with h2 | h3
  · obtain ⟨a, b, rfl⟩ := List.length_eq_two.mp h2
    have ha := hd a (by simp)
    have hb := hd b (by simp)
    show grpIter (a :: b :: '/' :: t) = some ([a, b, '/'], t)
    rw [grpIter, ha, hb, hs]
    simp [slashOpt]
  · obtain ⟨a, b, c, rfl⟩ := List.length_eq_three.mp h3
    have ha := hd a (by simp)
    have hb := hd b (by simp)
    have hc0 := hd c (by simp)
    show grpIter (a :: b :: c :: '/' :: t) = some ([a, b, c, '/'], t)
    rw [grpIter, ha, hb, hc0]
    simp [slashOpt]

/-- The greedy repetition consumes exactly the slash-joined groups when the
remainder starts with neither a digit nor a slash. -/
theorem grp_run :
    ∀ (gs : List (List Char)) (rest : List Char), gs ≠ [] →
      (∀ g ∈ gs, (∀ c ∈ g, c.isDigit = true) ∧ (g.length = 2 ∨ g.length = 3)) →
      (∀ c, rest.head? = some c → c.isDigit = false ∧ c ≠ '/') →
      grpMany (joinSlash gs ++ rest) = joinSlash gs ∧
      (grpIter (joinSlash gs ++ rest)).isSome = true := by
  intro gs
  induction gs with
  | nil => intro rest hne _ _; exact absurd rfl hne
  | cons g gs ih =>
    intro rest _ hgood hrest
    have hg := hgood g (List.mem_cons_self g gs)
    cases gs with
    | nil =>
      have h1 := grpIter_group g rest hg.1 hg.2 hrest
      have h2 : grpMany rest = [] :=
        grpMany_head_not_digit (fun c hc => (hrest c hc).1)
      constructor
      · show grpMany (g ++ rest) = g
        rw [grpMany_of_iter_some h1, h2, List.append_nil]
      · show (grpIter (g ++ rest)).isSome = true
        rw [h1]
        rfl
    | cons g2 gs2 =>
      have hT := ih rest (by simp)
        (fun x hx => hgood x (List.mem_cons_of_mem g hx)) hrest
      have h1 := grpIter_group_slash g (joinSlash (g2 :: gs2) ++ rest) hg.1 hg.2
      have hshape : joinSlash (g :: g2 :: gs2) ++ rest =
          g ++ '/' :: (joinSlash (g2 :: gs2) ++ rest) := by
        show (g ++ '/' :: joinSlash (g2 :: gs2)) ++ rest = _
        simp
      constructor
      · rw [hshape, grpMany_of_iter_some h1, hT.1]
        show (g ++ ['/']) ++ joinSlash (g2 :: gs2) = joinSlash (g :: g2 :: gs2)
        show (g ++ ['/']) ++ joinSlash (g2 :: gs2) = g ++ '/' :: joinSlash (g2 :: gs2)
        simp
      · rw [hshape, h1]
        rfl

theorem splitSlash_no_slash :
    ∀ (g : List Char), (∀ c ∈ g, c ≠ '/') → splitSlash g = [g] := by
  intro g
  induction g with
  | nil => intro h; rfl
  | cons c t ih =>
    intro h
    have hc := h c (List.mem_cons_self c t)
    rw [splitSlash]
    rw [ih (fun x hx => h x (List.mem_cons_of_mem c hx))]
    simp [hc]

theorem splitSlash_sep :
    ∀ (g t : List Char), (∀ c ∈ g, c ≠ '/') →
      splitSlash (g ++ '/' :: t) = g :: splitSlash t := by
  intro g
  induction g with
  | nil =>
    intro t h
    show splitSlash ('/' :: t) = [] :: splitSlash t
    rw [splitSlash]
    simp
  | cons c g2 ih =>
    intro t h
    have hc := h c (List.mem_cons_self c g2)
    show splitSlash (c :: (g2 ++ '/' :: t)) = (c :: g2) :: splitSlash t
    rw [splitSlash]
    rw [ih t (fun x hx => h x (List.mem_cons_of_mem c hx))]
    simp [hc]

theorem splitSlash_joinSlash :
    ∀ (gs : List (List Char)), gs ≠ [] →
      (∀ g ∈ gs, ∀ c ∈ g, c.isDigit = true) →
      splitSlash (joinSlash gs) = gs := by
  intro gs
  induction gs with
  | nil => intro hne _; exact absurd rfl hne
  | cons g gs ih =>
    intro _ hd
    cases gs with
    | nil =>
      show splitSlash g = [g]
      exact splitSlash_no_slash g
        (fun c hc => isDigit_ne_slash (hd g (List.mem_cons_self g []) c hc))
    | cons g2 gs2 =>
      show splitSlash (g ++ '/' :: joinSlash (g2 :: gs2)) = g :: g2 :: gs2
      rw [splitSlash_sep g (joinSlash (g2 :: gs2))
        (fun c hc => isDigit_ne_slash (hd g (List.mem_cons_self g (g2 :: gs2)) c hc))]
      rw [ih (by simp) (fun x hx => hd x (List.mem_cons_of_mem g hx))]

/-- C4 (amended): every text that begins with a run of two-to-three-digit
numeric groups separated by slashes (followed by the end of the text or by
a character that is neither a digit nor a slash) matches, and the matched
offsets are exactly those groups; a text that begins with a single digit
followed by a non-digit (or nothing) never matches, so such an invoice
falls back to the immediate branch. -/
theorem C4_two_to_three_digit_groups :
    (∀ (gs : List (List Char)) (rest : List Char), gs ≠ [] →
      (∀ g ∈ gs, (∀ c ∈ g, c.isDigit = true) ∧ (g.length = 2 ∨ g.length = 3)) →
      (∀ c, rest.head? = some c → c.isDigit = false ∧ c ≠ '/') →
      installmentsMatch (joinSlash gs ++ rest) = some (joinSlash gs) ∧
      splitSlash (joinSlash gs) = gs) ∧
    (∀ (c : Char) (rest : List Char), c.isDigit = true →
      (∀ d, rest.head? = some d → d.isDigit = false) →
      installmentsMatch (c :: rest) = none) := by
  constructor
  · intro gs rest hne hgood hrest
    have hr := grp_run gs rest hne hgood hrest
    obtain ⟨p, hp⟩ := Option.isSome_iff_exists.mp hr.2
    constructor
    · rw [installmentsMatch, hp]
      rw [hr.1]
    · exact splitSlash_joinSlash gs hne (fun g hg => (hgood g hg).1)
  · intro c rest hc hrest
    have hi : grpIter (c :: rest) = none := by
      match rest with
      | [] => rfl
      | [d] =>
        rw [grpIter, hrest d rfl]
        simp
      | d :: e :: r =>
        rw [grpIter, hrest d rfl]
        simp
    rw [installmentsMatch, hi]

/-- Witness for the amended C4 at the groups `30` and `60` and at the
single-digit text `5`. -/
theorem C4_two_to_three_digit_groups_witness :
    (installmentsMatch (joinSlash [['3', '0'], ['6', '0']] ++ []) =
      some (joinSlash [['3', '0'], ['6', '0']]) ∧
     splitSlash (joinSlash [['3', '0'], ['6', '0']]) = [['3', '0'], ['6', '0']]) ∧
    installmentsMatch ['5'] = none := by
  refine ⟨C4_two_to_three_digit_groups.1 [['3', '0'], ['6', '0']] []
    (by simp) (by decide) (fun c hc => by simp at hc), ?_⟩
  exact C4_two_to_three_digit_groups.2 '5' [] (by decide) (fun d hd => by simp at hd)

end ExcelHelper
